import Mathlib

/-!
Shallow embedding of the face-recognition core of the repository:
the distance engine (`compare_embeddings`), the match resolver
(`find_best_match`, `batch_find_matches`), the embedding store
(`set_embedding`, `delete_embedding`) and the recognition orchestrator
(`recognize_faces`), together with verified properties of these
definitions.

Numeric modelling: Python floats are idealised as an `FVal` value that is
either NaN, +infinity, -infinity, or an exact real number.  Comparisons
on `FVal` follow IEEE semantics (every comparison with NaN is false), and
a division with zero denominator silently produces NaN (0/0) or a signed
infinity (x/0, x nonzero), exactly as numpy scalar division does (numpy
emits a RuntimeWarning, not an exception).  `round(x, 4)` is modelled as
rounding `x * 10000` to the nearest integer; tie behaviour at exact
half-way points is irrelevant to every property proved here.
-/

/-- A Python float value: NaN, +inf, -inf, or a finite real. -/
inductive FVal where
  | nan : FVal
  | inf : FVal
  | ninf : FVal
  | val : ℝ → FVal

/-- Strict `<` on floats, IEEE style: any comparison with NaN is false. -/
def FVal.lt : FVal → FVal → Prop
  | .nan, _ => False
  | _, .nan => False
  | .inf, _ => False
  | .ninf, .inf => True
  | .ninf, .ninf => False
  | .ninf, .val _ => True
  | .val _, .inf => True
  | .val _, .ninf => False
  | .val x, .val y => x < y

/-- Non-strict `≤` on floats, IEEE style: any comparison with NaN is false. -/
def FVal.le : FVal → FVal → Prop
  | .nan, _ => False
  | _, .nan => False
  | _, .inf => True
  | .inf, _ => False
  | .ninf, _ => True
  | .val _, .ninf => False
  | .val x, .val y => x ≤ y

/-- `f ≤ t` for a float `f` and a finite real threshold `t`. -/
def FVal.leR : FVal → ℝ → Prop
  | .nan, _ => False
  | .inf, _ => False
  | .ninf, _ => True
  | .val x, t => x ≤ t

/-- `1 - f` on floats (`1 - NaN = NaN`, `1 - inf = -inf`, `1 - (-inf) = inf`). -/
def FVal.oneSub : FVal → FVal
  | .nan => .nan
  | .inf => .ninf
  | .ninf => .inf
  | .val x => .val (1 - x)

/-- IEEE division of reals: zero denominator yields NaN (for 0/0) or a
signed infinity, silently (numpy scalar semantics: warning, not error). -/
noncomputable def fdiv (x y : ℝ) : FVal :=
  if y = 0 then
    (if x = 0 then .nan else if 0 < x then .inf else .ninf)
  else .val (x / y)

/-- Python `round(x, 4)` idealised over the reals. -/
noncomputable def round4 (x : ℝ) : ℝ := ((round (x * 10000) : ℤ) : ℝ) / 10000

/-- `round(·, 4)` lifted to floats (`round` of NaN / infinities is the identity). -/
noncomputable def FVal.round4F : FVal → FVal
  | .nan => .nan
  | .inf => .inf
  | .ninf => .ninf
  | .val x => .val (round4 x)

/-- An embedding vector (a 1-D numpy float array). -/
abbrev Vec := List ℝ

/-- `np.dot` of two equal-length 1-D arrays. -/
def dot (a b : Vec) : ℝ := (List.zipWith (· * ·) a b).sum

/-- Sum of squares of the entries of a vector. -/
def sumSq (a : Vec) : ℝ := (a.map fun x => x * x).sum

/-- Elementwise subtraction of 1-D numpy arrays, with numpy broadcasting:
equal lengths subtract elementwise, a length-1 operand broadcasts, and any
other length mismatch raises (`none`). -/
def npSub (a b : Vec) : Option Vec :=
  if a.length = b.length then some (List.zipWith (fun x y => x - y) a b)
  else if a.length = 1 then some (b.map fun y => a.headI - y)
  else if b.length = 1 then some (a.map fun x => x - b.headI)
  else none

/-- `EmbeddingCache.compare_embeddings`: distance between two embeddings
under the configured metric string.  `np.dot` on vectors of different
lengths raises, which the source catches and converts to `float('inf')`;
likewise any metric name other than the three known ones yields
`float('inf')`. -/
noncomputable def compare_embeddings (metric : String) (embedding1 embedding2 : Vec) : FVal :=
  if metric = "cosine" then
    if embedding1.length = embedding2.length then
      FVal.oneSub (fdiv (dot embedding1 embedding2)
        (Real.sqrt (sumSq embedding1) * Real.sqrt (sumSq embedding2)))
    else FVal.inf
  else if metric = "euclidean" then
    match npSub embedding1 embedding2 with
    | some d => FVal.val (Real.sqrt (sumSq d))
    | none => FVal.inf
  else if metric = "euclidean_l2" then
    match npSub embedding1 embedding2 with
    | some d => fdiv (Real.sqrt (sumSq d)) (embedding1.length : ℝ)
    | none => FVal.inf
  else FVal.inf

open Classical in
/-- The accumulator loop of `EmbeddingCache.find_best_match`: scan the
cached embeddings in iteration order, strictly improving the best
distance (ties keep the earlier entry). -/
noncomputable def fbmLoop (metric : String) (q : Vec) :
    List (String × Vec) → Option String × FVal → Option String × FVal
  | [], acc => acc
  | (sid, v) :: rest, (bid, bd) =>
    let d := compare_embeddings metric q v
    if FVal.lt d bd then fbmLoop metric q rest (some sid, d)
    else fbmLoop metric q rest (bid, bd)

open Classical in
/-- `EmbeddingCache.find_best_match` (with the optional threshold already
resolved to a real number): returns `(student_id, distance, confidence)`. -/
noncomputable def find_best_match (metric : String) (cache : List (String × Vec))
    (query_embedding : Vec) (threshold : ℝ) : Option String × FVal × FVal :=
  match cache with
  | [] => (none, FVal.inf, FVal.val 0)
  | _ =>
    let r := fbmLoop metric query_embedding cache (none, FVal.inf)
    if FVal.leR r.2 threshold then (r.1, r.2, FVal.oneSub r.2)
    else (none, r.2, FVal.val 0)

/-- `EmbeddingCache.batch_find_matches`: the imperative append loop over
the list of query embeddings. -/
noncomputable def batch_find_matches (metric : String) (cache : List (String × Vec))
    (query_embeddings : List Vec) (threshold : ℝ) :
    List (Option String × FVal × FVal) :=
  query_embeddings.foldl
    (fun results e => results ++ [find_best_match metric cache e threshold]) []

/-- Configured distance metric (`settings.DEEPFACE_DISTANCE_METRIC` default). -/
def DEEPFACE_DISTANCE_METRIC : String := "cosine"

/-- Configured recognition threshold (`settings.CONFIDENCE_THRESHOLD` default `0.6`). -/
noncomputable def CONFIDENCE_THRESHOLD : ℝ := 3 / 5

/-- Metadata record stored alongside an embedding: the caller-supplied
fields plus the fields `set_embedding` adds (`student_id`, `model`,
`cached_at`, `embedding_shape`). -/
structure MetaRecord where
  base : List (String × String)
  student_id : String
  model : String
  cached_at : String
  embedding_shape : List Nat
deriving DecidableEq

/-- A numpy array as handed to `set_embedding`: a shape together with its
row-major data (numpy guarantees the element count matches the shape). -/
structure NDArray where
  shape : List Nat
  data : List ℝ
  size_eq : data.length = shape.prod

/-- Association-list lookup with string keys (Python dict access). -/
def alookup {α : Type} : List (String × α) → String → Option α
  | [], _ => none
  | (k, v) :: rest, key => if k = key then some v else alookup rest key

/-- Python dict upsert: an existing key keeps its position, a new key is
appended (insertion order, as dict iteration preserves it). -/
def upsert {α : Type} : List (String × α) → String → α → List (String × α)
  | [], key, v => [(key, v)]
  | (k, w) :: rest, key, v =>
    if k = key then (key, v) :: rest else (k, w) :: upsert rest key v

/-- Python dict `del` guarded by a containment check: removes the (unique)
entry for the key, or leaves the list unchanged. -/
def removeKey {α : Type} : List (String × α) → String → List (String × α)
  | [], _ => []
  | (k, w) :: rest, key =>
    if k = key then rest else (k, w) :: removeKey rest key

/-- State of an `EmbeddingCache` instance: the in-memory mapping, the
in-memory metadata, and the durable (on-disk) vectors and metadata. -/
structure Store where
  model_name : String
  cache : List (String × Vec)
  metadata : List (String × MetaRecord)
  disk : List (String × Vec)
  diskMeta : List (String × MetaRecord)

/-- `EmbeddingCache.set_embedding`.  `now` is the external clock reading
and `ioFail` models the durable write (`np.save` / `json.dump`) raising
an I/O error; the `except` clause converts that into a `False` return
after the in-memory mapping was already updated. -/
def set_embedding (st : Store) (student_id : String) (embedding : NDArray)
    (metadata : Option (List (String × String))) (save_to_disk : Bool)
    (now : String) (ioFail : Bool) : Bool × Store :=
  if embedding.shape ≠ [512] ∧ embedding.shape ≠ [1, 512] then
    (false, st)
  else
    let flat := embedding.data
    let md : MetaRecord :=
      { base := metadata.getD []
        student_id := student_id
        model := st.model_name
        cached_at := now
        embedding_shape := [flat.length] }
    let st' := { st with
      cache := upsert st.cache student_id flat
      metadata := upsert st.metadata student_id md }
    if save_to_disk then
      if ioFail then (false, st')
      else (true, { st' with
        disk := upsert st'.disk student_id flat
        diskMeta := upsert st'.diskMeta student_id md })
    else (true, st')

/-- `EmbeddingCache.delete_embedding`: removes the entry from the
in-memory mapping and metadata, and (when requested) the durable
artifacts; always returns `True`. -/
def delete_embedding (st : Store) (student_id : String)
    (delete_from_disk : Bool) : Bool × Store :=
  let st' := { st with
    cache := removeKey st.cache student_id
    metadata := removeKey st.metadata student_id }
  if delete_from_disk then
    (true, { st' with
      disk := removeKey st'.disk student_id
      diskMeta := removeKey st'.diskMeta student_id })
  else (true, st')

/-- An axis-aligned face bounding box (`facial_area` after `int` casts). -/
structure Region where
  x : Int
  y : Int
  w : Int
  h : Int
deriving DecidableEq

/-- A raw detector output: detection confidence plus bounding box. -/
structure RawFace where
  confidence : ℝ
  area : Region

/-- A formatted detected face as produced by
`ImageProcessor.extract_faces_from_frame` (the cropped pixel array is
external and not modelled). -/
structure Face where
  index : Nat
  confidence : ℝ
  region : Region

open Classical in
/-- `ImageProcessor.extract_faces_from_frame`: filter the detector output
by confidence (`confidence >= min_confidence`), keeping the raw index and
rounding the reported confidence to 4 decimals. -/
noncomputable def extract_faces_from_frame (raw : List RawFace)
    (min_confidence : ℝ) : List Face :=
  raw.enum.filterMap fun p =>
    if min_confidence ≤ p.2.confidence then
      some { index := p.1, confidence := round4 p.2.confidence, region := p.2.area }
    else none

/-- One entry of `recognized_students` in a recognition result. -/
structure RecogEntry where
  student_id : String
  confidence : FVal
  distance : FVal
  face_region : Region
  detection_confidence : ℝ

/-- The result dictionary of `FaceRecognitionService.recognize_faces`
(`total_recognized` is absent — `none` — in the no-faces result; the
processing-time and timestamp fields are external clock readings and are
not modelled). -/
structure RecogResult where
  success : Bool
  message : String
  session_id : String
  recognized_students : List RecogEntry
  total_faces_detected : Nat
  total_recognized : Option Nat

open Classical in
/-- The per-face body of the matching loop in
`FaceRecognitionService.recognize_faces`: a face whose embedding
generation failed is skipped, a face whose best match carries no identity
(or a falsy empty-string identity, Python truthiness) is skipped, and an
accepted face yields a `recognized_students` entry with the confidence
and distance rounded to 4 decimals. -/
noncomputable def matchFace (metric : String) (threshold : ℝ)
    (cache : List (String × Vec)) (gen : Nat → Option Vec)
    (p : Nat × Face) : Option RecogEntry :=
  match gen p.1 with
  | none => none
  | some emb =>
    match find_best_match metric cache emb threshold with
    | (some sid, d, c) =>
      if sid ≠ "" then
        some { student_id := sid
               confidence := FVal.round4F c
               distance := FVal.round4F d
               face_region := p.2.region
               detection_confidence := p.2.confidence }
      else none
    | (none, _, _) => none

open Classical in
/-- `FaceRecognitionService.recognize_faces`.  External collaborators are
inputs: `raw` is the detector output for the (preprocessed) image and
`gen i` is the embedding produced for the `i`-th detected face crop
(`none` when generation fails).  Matching uses the configured metric and
threshold over the cache's iteration sequence. -/
noncomputable def recognize_faces (metric : String) (threshold : ℝ)
    (cache : List (String × Vec)) (raw : List RawFace)
    (gen : Nat → Option Vec) (sessionId : String) : RecogResult :=
  let faces := extract_faces_from_frame raw (1 / 2)
  match faces with
  | [] =>
    { success := false
      message := "No faces detected in the image"
      session_id := sessionId
      recognized_students := []
      total_faces_detected := 0
      total_recognized := none }
  | _ =>
    let recognized := faces.enum.filterMap (matchFace metric threshold cache gen)
    { success := true
      message := "Recognized " ++ toString recognized.length ++ " student(s)"
      session_id := sessionId
      recognized_students := recognized
      total_faces_detected := faces.length
      total_recognized := some recognized.length }

/-! ### Order lemmas for float values -/

theorem FVal.le_of_lt : ∀ {a b : FVal}, FVal.lt a b → FVal.le a b := by
  intro a b h
  cases a <;> cases b <;> simp_all [FVal.lt, FVal.le] <;> linarith

theorem FVal.le_refl_of_ne_nan : ∀ {a : FVal}, a ≠ FVal.nan → FVal.le a a := by
  intro a h
  cases a <;> simp_all [FVal.le]

theorem FVal.le_of_not_lt : ∀ {a b : FVal}, a ≠ FVal.nan → b ≠ FVal.nan →
    ¬ FVal.lt a b → FVal.le b a := by
  intro a b ha hb h
  cases a <;> cases b <;> simp_all [FVal.lt, FVal.le] <;> linarith

theorem FVal.lt_trans : ∀ {a b c : FVal}, FVal.lt a b → FVal.lt b c → FVal.lt a c := by
  intro a b c h1 h2
  cases a <;> cases b <;> cases c <;> simp_all [FVal.lt] <;> linarith

theorem FVal.lt_of_lt_of_le : ∀ {a b c : FVal}, FVal.lt a b → FVal.le b c →
    FVal.lt a c := by
  intro a b c h1 h2
  cases a <;> cases b <;> cases c <;> simp_all [FVal.lt, FVal.le] <;> linarith

theorem FVal.eq_inf_of_inf_le : ∀ {a : FVal}, FVal.le FVal.inf a → a = FVal.inf := by
  intro a h
  cases a <;> simp_all [FVal.le]

theorem FVal.ne_nan_of_lt : ∀ {a b : FVal}, FVal.lt a b → a ≠ FVal.nan := by
  intro a b h
  cases a <;> cases b <;> simp_all [FVal.lt]

/-! ### Vector lemmas -/

theorem sumSq_nonneg (a : Vec) : 0 ≤ sumSq a := by
  unfold sumSq
  apply List.sum_nonneg
  intro x hx
  obtain ⟨y, _, rfl⟩ := List.mem_map.1 hx
  exact mul_self_nonneg y

theorem sumSq_eq_zero_iff (a : Vec) : sumSq a = 0 ↔ ∀ x ∈ a, x = 0 := by
  induction a with
  | nil => simp [sumSq]
  | cons x rest ih =>
    have h1 : 0 ≤ x * x := mul_self_nonneg x
    have h2 : 0 ≤ sumSq rest := sumSq_nonneg rest
    constructor
    · intro h y hy
      have hsum : x * x + sumSq rest = 0 := by
        simpa [sumSq] using h
      have hx0 : x * x = 0 := le_antisymm (by linarith) h1
      have hr0 : sumSq rest = 0 := le_antisymm (by linarith) h2
      rcases List.mem_cons.1 hy with rfl | hy'
      · exact mul_self_eq_zero.1 hx0
      · exact (ih.1 hr0) y hy'
    · intro h
      have hx0 : x = 0 := h x (List.mem_cons_self x rest)
      have hr0 : sumSq rest = 0 := ih.2 fun y hy => h y (List.mem_cons_of_mem x hy)
      simp [sumSq, hx0]
      simpa [sumSq] using hr0

theorem dot_self_eq_sumSq (a : Vec) : dot a a = sumSq a := by
  induction a with
  | nil => simp [dot, sumSq]
  | cons x rest ih => simpa [dot, sumSq] using ih

theorem dot_eq_zero_left {a : Vec} (b : Vec) (h : ∀ x ∈ a, x = 0) : dot a b = 0 := by
  induction a generalizing b with
  | nil => simp [dot]
  | cons x rest ih =>
    cases b with
    | nil => simp [dot]
    | cons y bs =>
      have hx : x = 0 := h x (List.mem_cons_self x rest)
      have hr : dot rest bs = 0 :=
        ih bs fun z hz => h z (List.mem_cons_of_mem x hz)
      simpa [dot, hx] using hr

theorem dot_eq_zero_right {b : Vec} (a : Vec) (h : ∀ x ∈ b, x = 0) : dot a b = 0 := by
  induction a generalizing b with
  | nil => simp [dot]
  | cons x rest ih =>
    cases b with
    | nil => simp [dot]
    | cons y bs =>
      have hy : y = 0 := h y (List.mem_cons_self y bs)
      have hr : dot rest bs = 0 :=
        ih fun z hz => h z (List.mem_cons_of_mem y hz)
      simpa [dot, hy] using hr

theorem sumSq_replicate_zero (n : ℕ) : sumSq (List.replicate n (0 : ℝ)) = 0 := by
  simp [sumSq, List.map_replicate, List.sum_replicate]

theorem sumSq_zipWith_sub_self (a : Vec) :
    sumSq (List.zipWith (fun x y => x - y) a a) = 0 := by
  induction a with
  | nil => simp [sumSq]
  | cons x rest ih => simpa [sumSq] using ih

/-! ### Lemmas about the distance engine -/

theorem fdiv_ne_ninf_of_nonneg {x y : ℝ} (hx : 0 ≤ x) : fdiv x y ≠ FVal.ninf := by
  unfold fdiv
  split_ifs with h1 h2 h3
  · simp
  · simp
  · exact absurd (lt_of_le_of_ne hx (Ne.symm h2)) h3
  · simp

/-- The product of the two norms vanishes only when one of the vectors is
all-zero, in which case the dot product vanishes as well; hence the
cosine branch can never produce a positive-over-zero division. -/
theorem cosine_core_ne_inf (a b : Vec) :
    fdiv (dot a b) (Real.sqrt (sumSq a) * Real.sqrt (sumSq b)) ≠ FVal.inf := by
  unfold fdiv
  split_ifs with h1 h2 h3
  · simp
  · -- denominator zero but dot nonzero and positive: impossible
    exfalso
    rcases mul_eq_zero.1 h1 with hs | hs
    · have hz : sumSq a = 0 :=
        le_antisymm (Real.sqrt_eq_zero'.1 hs) (sumSq_nonneg a)
      exact h2 (dot_eq_zero_left b ((sumSq_eq_zero_iff a).1 hz))
    · have hz : sumSq b = 0 :=
        le_antisymm (Real.sqrt_eq_zero'.1 hs) (sumSq_nonneg b)
      exact h2 (dot_eq_zero_right a ((sumSq_eq_zero_iff b).1 hz))
  · simp
  · simp

/-- `compare_embeddings` never returns negative infinity. -/
theorem compare_embeddings_ne_ninf (metric : String) (a b : Vec) :
    compare_embeddings metric a b ≠ FVal.ninf := by
  unfold compare_embeddings
  split_ifs with h1 h2 h3 h4
  · intro hc
    apply cosine_core_ne_inf a b
    cases hfd : fdiv (dot a b) (Real.sqrt (sumSq a) * Real.sqrt (sumSq b)) <;>
      simp_all [FVal.oneSub]
  · simp
  · cases hs : npSub a b <;> simp
  · cases hs : npSub a b with
    | none => simp
    | some d => exact fdiv_ne_ninf_of_nonneg (Real.sqrt_nonneg _)
  · simp

/-! ### Loop characterization of the match resolver -/

/-- Full characterization of the accumulator loop: either no cached entry
strictly improved on the initial best distance (and the accumulator is
returned unchanged, every scanned distance being at least the initial
one), or the result is the first entry achieving the final best distance -
everything before it is strictly worse and everything after it is no
better. -/
theorem fbmLoop_spec (metric : String) (q : Vec) :
    ∀ (l : List (String × Vec)) (b : Option String) (bd : FVal),
      bd ≠ FVal.nan →
      (∀ p ∈ l, compare_embeddings metric q p.2 ≠ FVal.nan) →
      (fbmLoop metric q l (b, bd) = (b, bd) ∧
        ∀ p ∈ l, FVal.le bd (compare_embeddings metric q p.2)) ∨
      (∃ l1 sid v l2, l = l1 ++ (sid, v) :: l2 ∧
        fbmLoop metric q l (b, bd) = (some sid, compare_embeddings metric q v) ∧
        FVal.lt (compare_embeddings metric q v) bd ∧
        (∀ p ∈ l1, FVal.lt (compare_embeddings metric q v)
          (compare_embeddings metric q p.2)) ∧
        (∀ p ∈ l2, FVal.le (compare_embeddings metric q v)
          (compare_embeddings metric q p.2))) := by
  intro l
  induction l with
  | nil =>
    intro b bd _ _
    left
    exact ⟨rfl, by simp⟩
  | cons hd rest ih =>
    intro b bd hbd hnn
    obtain ⟨sid, v⟩ := hd
    have hdnn : compare_embeddings metric q v ≠ FVal.nan :=
      hnn (sid, v) (List.mem_cons_self _ _)
    have hrestnn : ∀ p ∈ rest, compare_embeddings metric q p.2 ≠ FVal.nan :=
      fun p hp => hnn p (List.mem_cons_of_mem _ hp)
    by_cases hlt : FVal.lt (compare_embeddings metric q v) bd
    · -- the head strictly improves: recurse with the head as accumulator
      have hstep : fbmLoop metric q ((sid, v) :: rest) (b, bd) =
          fbmLoop metric q rest (some sid, compare_embeddings metric q v) := by
        simp [fbmLoop, hlt]
      rcases ih (some sid) (compare_embeddings metric q v) hdnn hrestnn with
        ⟨heq, hmin⟩ | ⟨l1, sid', v', l2, hdec, heq, hlt', hbefore, hafter⟩
      · right
        refine ⟨[], sid, v, rest, by simp, ?_, hlt, by simp, hmin⟩
        rw [hstep, heq]
      · right
        refine ⟨(sid, v) :: l1, sid', v', l2, by simp [hdec], ?_, ?_, ?_, hafter⟩
        · rw [hstep, heq]
        · exact FVal.lt_trans hlt' hlt
        · intro p hp
          rcases List.mem_cons.1 hp with rfl | hp'
          · exact hlt'
          · exact hbefore p hp'
    · -- the head does not improve: recurse with the unchanged accumulator
      have hstep : fbmLoop metric q ((sid, v) :: rest) (b, bd) =
          fbmLoop metric q rest (b, bd) := by
        simp [fbmLoop, hlt]
      have hle : FVal.le bd (compare_embeddings metric q v) :=
        FVal.le_of_not_lt hdnn hbd hlt
      rcases ih b bd hbd hrestnn with
        ⟨heq, hmin⟩ | ⟨l1, sid', v', l2, hdec, heq, hlt', hbefore, hafter⟩
      · left
        constructor
        · rw [hstep, heq]
        · intro p hp
          rcases List.mem_cons.1 hp with rfl | hp'
          · exact hle
          · exact hmin p hp'
      · right
        refine ⟨(sid, v) :: l1, sid', v', l2, by simp [hdec], ?_, hlt', ?_, hafter⟩
        · rw [hstep, heq]
        · intro p hp
          rcases List.mem_cons.1 hp with rfl | hp'
          · exact FVal.lt_of_lt_of_le hlt' hle
          · exact hbefore p hp'

theorem fbmLoop_snd_ne_ninf (metric : String) (q : Vec) :
    ∀ (l : List (String × Vec)) (b : Option String) (bd : FVal),
      bd ≠ FVal.ninf → (fbmLoop metric q l (b, bd)).2 ≠ FVal.ninf := by
  intro l
  induction l with
  | nil =>
    intro b bd h
    simpa [fbmLoop] using h
  | cons hd rest ih =>
    intro b bd h
    obtain ⟨sid, v⟩ := hd
    by_cases hlt : FVal.lt (compare_embeddings metric q v) bd
    · simpa [fbmLoop, hlt] using
        ih (some sid) _ (compare_embeddings_ne_ninf metric q v)
    · simpa [fbmLoop, hlt] using ih b bd h

/-- On a nonempty cache, an accepted best distance produces the loop's
accumulator as the result triple. -/
theorem find_best_match_eq_pos (metric : String) (hd : String × Vec)
    (rest : List (String × Vec)) (q : Vec) (t : ℝ)
    (hle : FVal.leR (fbmLoop metric q (hd :: rest) (none, FVal.inf)).2 t) :
    find_best_match metric (hd :: rest) q t =
      ((fbmLoop metric q (hd :: rest) (none, FVal.inf)).1,
       (fbmLoop metric q (hd :: rest) (none, FVal.inf)).2,
       FVal.oneSub (fbmLoop metric q (hd :: rest) (none, FVal.inf)).2) := by
  simp [find_best_match, hle]

/-- On a nonempty cache, a rejected best distance reports no identity but
still reports the best distance found. -/
theorem find_best_match_eq_neg (metric : String) (hd : String × Vec)
    (rest : List (String × Vec)) (q : Vec) (t : ℝ)
    (hle : ¬ FVal.leR (fbmLoop metric q (hd :: rest) (none, FVal.inf)).2 t) :
    find_best_match metric (hd :: rest) q t =
      (none, (fbmLoop metric q (hd :: rest) (none, FVal.inf)).2, FVal.val 0) := by
  simp [find_best_match, hle]

/-- When `find_best_match` reports an identity, the reported distance is a
finite real within the threshold. -/
theorem find_best_match_fst_some (metric : String) (cache : List (String × Vec))
    (q : Vec) (t : ℝ) (s : String)
    (h : (find_best_match metric cache q t).1 = some s) :
    ∃ x : ℝ, (find_best_match metric cache q t).2.1 = FVal.val x ∧ x ≤ t := by
  cases cache with
  | nil => simp [find_best_match] at h
  | cons hd rest =>
    have hnn : (fbmLoop metric q (hd :: rest) (none, FVal.inf)).2 ≠ FVal.ninf :=
      fbmLoop_snd_ne_ninf metric q _ none FVal.inf (by simp)
    by_cases hle : FVal.leR (fbmLoop metric q (hd :: rest) (none, FVal.inf)).2 t
    · cases hv : (fbmLoop metric q (hd :: rest) (none, FVal.inf)).2 with
      | nan => rw [hv] at hle; simp [FVal.leR] at hle
      | inf => rw [hv] at hle; simp [FVal.leR] at hle
      | ninf => exact absurd hv hnn
      | val x =>
        refine ⟨x, ?_, ?_⟩
        · rw [find_best_match_eq_pos metric hd rest q t hle]
          exact hv
        · rw [hv] at hle; simpa [FVal.leR] using hle
    · simp [find_best_match, hle] at h

/-- C2: for every query vector and cache (with threshold resolved), if the
cache is empty `find_best_match` returns `(none, +inf, 0.0)`; otherwise,
letting `d` be the minimum distance over all cached embeddings (the first
encountered minimum winning ties), it returns `(identity-of-minimum, d,
1 - d)` when `d ≤ threshold` and `(none, d, 0.0)` when `d > threshold`.
Stated under the domain condition that no computed distance is NaN (NaN is
unordered, so the spec's "minimum distance" is undefined otherwise). -/
theorem c2_find_best_match_spec (metric : String) (cache : List (String × Vec))
    (q : Vec) (t : ℝ)
    (hnn : ∀ p ∈ cache, compare_embeddings metric q p.2 ≠ FVal.nan) :
    (cache = [] → find_best_match metric cache q t = (none, FVal.inf, FVal.val 0)) ∧
    (cache ≠ [] →
      ((find_best_match metric cache q t).2.1 ∈
        cache.map fun p => compare_embeddings metric q p.2) ∧
      (∀ x ∈ cache.map (fun p => compare_embeddings metric q p.2),
        FVal.le (find_best_match metric cache q t).2.1 x) ∧
      (FVal.leR (find_best_match metric cache q t).2.1 t →
        ∃ l1 sid v l2, cache = l1 ++ (sid, v) :: l2 ∧
          compare_embeddings metric q v = (find_best_match metric cache q t).2.1 ∧
          (∀ p ∈ l1, FVal.lt (find_best_match metric cache q t).2.1
            (compare_embeddings metric q p.2)) ∧
          find_best_match metric cache q t =
            (some sid, compare_embeddings metric q v,
              FVal.oneSub (compare_embeddings metric q v))) ∧
      (¬ FVal.leR (find_best_match metric cache q t).2.1 t →
        find_best_match metric cache q t =
          (none, (find_best_match metric cache q t).2.1, FVal.val 0))) := by
  constructor
  · intro hc
    subst hc
    simp [find_best_match]
  · intro hc
    cases cache with
    | nil => exact absurd rfl hc
    | cons hd rest =>
    -- the common best-distance value of both branches
    have h21 : (find_best_match metric (hd :: rest) q t).2.1 =
        (fbmLoop metric q (hd :: rest) (none, FVal.inf)).2 := by
      by_cases hle : FVal.leR (fbmLoop metric q (hd :: rest) (none, FVal.inf)).2 t
      · rw [find_best_match_eq_pos metric hd rest q t hle]
      · rw [find_best_match_eq_neg metric hd rest q t hle]
    rcases fbmLoop_spec metric q (hd :: rest) none FVal.inf (by simp) hnn with
      ⟨heq, hmin⟩ | ⟨l1, sid, v, l2, hdec, heq, _, hbefore, hafter⟩
    · -- no entry improved on +inf: every distance is +inf
      have hall : ∀ p ∈ hd :: rest,
          compare_embeddings metric q p.2 = FVal.inf :=
        fun p hp => FVal.eq_inf_of_inf_le (hmin p hp)
      have hr2 : (fbmLoop metric q (hd :: rest) (none, FVal.inf)).2 = FVal.inf := by
        rw [heq]
      refine ⟨?_, ?_, ?_, ?_⟩
      · rw [h21, hr2]
        exact List.mem_map.2 ⟨hd, List.mem_cons_self _ _, hall hd (List.mem_cons_self _ _)⟩
      · intro x hx
        obtain ⟨p, hp, rfl⟩ := List.mem_map.1 hx
        rw [h21, hr2, hall p hp]
        simp [FVal.le]
      · intro hacc
        rw [h21, hr2] at hacc
        simp [FVal.leR] at hacc
      · intro hrej
        rw [h21] at hrej
        rw [find_best_match_eq_neg metric hd rest q t hrej]
    · -- the loop selected the first entry achieving the minimum
      have hvnn : compare_embeddings metric q v ≠ FVal.nan := by
        apply hnn (sid, v)
        rw [hdec]
        exact List.mem_append_right _ (List.mem_cons_self _ _)
      have hr2 : (fbmLoop metric q (hd :: rest) (none, FVal.inf)).2 =
          compare_embeddings metric q v := by
        rw [heq]
      have hminall : ∀ p ∈ hd :: rest,
          FVal.le (compare_embeddings metric q v) (compare_embeddings metric q p.2) := by
        intro p hp
        rw [hdec] at hp
        rcases List.mem_append.1 hp with hp1 | hp2
        · exact FVal.le_of_lt (hbefore p hp1)
        · rcases List.mem_cons.1 hp2 with rfl | hp3
          · exact FVal.le_refl_of_ne_nan hvnn
          · exact hafter p hp3
      refine ⟨?_, ?_, ?_, ?_⟩
      · rw [h21, hr2]
        refine List.mem_map.2 ⟨(sid, v), ?_, rfl⟩
        rw [hdec]
        exact List.mem_append_right _ (List.mem_cons_self _ _)
      · intro x hx
        obtain ⟨p, hp, rfl⟩ := List.mem_map.1 hx
        rw [h21, hr2]
        exact hminall p hp
      · intro hacc
        rw [h21] at hacc
        refine ⟨l1, sid, v, l2, hdec, by rw [h21, hr2], ?_, ?_⟩
        · intro p hp
          rw [h21, hr2]
          exact hbefore p hp
        · rw [find_best_match_eq_pos metric hd rest q t hacc, heq]
      · intro hrej
        rw [h21] at hrej
        rw [find_best_match_eq_neg metric hd rest q t hrej]

/-- The imperative append loop is the map over the queries. -/
theorem foldl_append_map {α β : Type} (f : α → β) :
    ∀ (l : List α) (acc : List β),
      l.foldl (fun r e => r ++ [f e]) acc = acc ++ l.map f := by
  intro l
  induction l with
  | nil => intro acc; simp
  | cons x rest ih => intro acc; simp [ih]

theorem batch_find_matches_eq_map (metric : String) (cache : List (String × Vec))
    (qs : List Vec) (t : ℝ) :
    batch_find_matches metric cache qs t =
      qs.map fun q => find_best_match metric cache q t := by
  simpa [batch_find_matches] using
    foldl_append_map (fun q => find_best_match metric cache q t) qs []

/-- C9: `batch_find_matches` returns a list of the same length as the
query list whose `i`-th element is `find_best_match` applied to the
`i`-th query with the same threshold, in input order. -/
theorem c9_batch_find_matches (metric : String) (cache : List (String × Vec))
    (qs : List Vec) (t : ℝ) :
    (batch_find_matches metric cache qs t).length = qs.length ∧
    ∀ i : ℕ, (batch_find_matches metric cache qs t).get? i =
      (qs.get? i).map fun q => find_best_match metric cache q t := by
  rw [batch_find_matches_eq_map]
  exact ⟨List.length_map _ _, fun i => List.get?_map _ _ _⟩

/-- Concrete distance evaluation used by the C2 witness. -/
theorem compare_euclid_eval :
    compare_embeddings "euclidean" [0, 0] [1, 0] = FVal.val 1 := by
  unfold compare_embeddings
  rw [if_neg (by decide), if_pos rfl]
  norm_num [npSub, sumSq, List.zipWith, Real.sqrt_one]

/-- Witness for C2: the theorem applied to the one-entry cache
`{a ↦ [1,0]}` with query `[0,0]` and threshold `2`, whose single distance
is the finite value `1`. -/
theorem c2_witness :
    (∀ p ∈ [("a", ([1, 0] : Vec))],
        compare_embeddings "euclidean" [0, 0] p.2 ≠ FVal.nan) ∧
    (([("a", ([1, 0] : Vec))] = ([] : List (String × Vec)) →
      find_best_match "euclidean" [("a", [1, 0])] [0, 0] 2 =
        (none, FVal.inf, FVal.val 0)) ∧
    ([("a", ([1, 0] : Vec))] ≠ ([] : List (String × Vec)) →
      ((find_best_match "euclidean" [("a", [1, 0])] [0, 0] 2).2.1 ∈
        [("a", ([1, 0] : Vec))].map fun p =>
          compare_embeddings "euclidean" [0, 0] p.2) ∧
      (∀ x ∈ [("a", ([1, 0] : Vec))].map (fun p =>
          compare_embeddings "euclidean" [0, 0] p.2),
        FVal.le (find_best_match "euclidean" [("a", [1, 0])] [0, 0] 2).2.1 x) ∧
      (FVal.leR (find_best_match "euclidean" [("a", [1, 0])] [0, 0] 2).2.1 2 →
        ∃ l1 sid v l2, [("a", ([1, 0] : Vec))] = l1 ++ (sid, v) :: l2 ∧
          compare_embeddings "euclidean" [0, 0] v =
            (find_best_match "euclidean" [("a", [1, 0])] [0, 0] 2).2.1 ∧
          (∀ p ∈ l1, FVal.lt
            (find_best_match "euclidean" [("a", [1, 0])] [0, 0] 2).2.1
            (compare_embeddings "euclidean" [0, 0] p.2)) ∧
          find_best_match "euclidean" [("a", [1, 0])] [0, 0] 2 =
            (some sid, compare_embeddings "euclidean" [0, 0] v,
              FVal.oneSub (compare_embeddings "euclidean" [0, 0] v))) ∧
      (¬ FVal.leR (find_best_match "euclidean" [("a", [1, 0])] [0, 0] 2).2.1 2 →
        find_best_match "euclidean" [("a", [1, 0])] [0, 0] 2 =
          (none,
            (find_best_match "euclidean" [("a", [1, 0])] [0, 0] 2).2.1,
            FVal.val 0)))) := by
  have h : ∀ p ∈ [("a", ([1, 0] : Vec))],
      compare_embeddings "euclidean" [0, 0] p.2 ≠ FVal.nan := by
    intro p hp
    rw [List.mem_singleton] at hp
    subst hp
    rw [compare_euclid_eval]
    simp
  exact ⟨h, c2_find_best_match_spec "euclidean" [("a", [1, 0])] [0, 0] 2 h⟩

/-- C3 (counterexample): the claim says a zero vector yields `+infinity`
under the cosine metric, but the code performs the `0/0` division
silently, so the distance is NaN, not `+infinity`. -/
theorem c3_counterexample :
    compare_embeddings "cosine" [0] [1] = FVal.nan ∧ FVal.nan ≠ FVal.inf := by
  constructor
  · unfold compare_embeddings
    rw [if_pos rfl, if_pos (show ([0] : Vec).length = ([1] : Vec).length from rfl)]
    norm_num [dot, sumSq, List.zipWith, fdiv, FVal.oneSub, Real.sqrt_zero]
  · simp

/-- C3 (amended): for equal-length vectors with at least one of them
all-zero, the cosine distance is NaN — the `0/0` division on the product
of the norms is performed silently and propagates through
`1 - cosine_similarity`. -/
theorem c3_cosine_zero_vector (a b : Vec) (hlen : a.length = b.length)
    (hz : (∀ x ∈ a, x = 0) ∨ (∀ x ∈ b, x = 0)) :
    compare_embeddings "cosine" a b = FVal.nan := by
  unfold compare_embeddings
  rw [if_pos rfl, if_pos hlen]
  have hdot : dot a b = 0 := by
    rcases hz with h | h
    · exact dot_eq_zero_left b h
    · exact dot_eq_zero_right a h
  have hden : Real.sqrt (sumSq a) * Real.sqrt (sumSq b) = 0 := by
    rcases hz with h | h
    · rw [(sumSq_eq_zero_iff a).2 h, Real.sqrt_zero, zero_mul]
    · rw [(sumSq_eq_zero_iff b).2 h, Real.sqrt_zero, mul_zero]
  rw [hdot, hden]
  simp [fdiv, FVal.oneSub]

/-- Witness for C3 (amended) at `a = [0]`, `b = [5]`. -/
theorem c3_witness :
    (([(0 : ℝ)] : Vec).length = ([(5 : ℝ)] : Vec).length ∧
      ∀ x ∈ [(0 : ℝ)], x = 0) ∧
    compare_embeddings "cosine" [0] [5] = FVal.nan := by
  have hz : ∀ x ∈ [(0 : ℝ)], x = 0 := by simp
  exact ⟨⟨rfl, hz⟩, c3_cosine_zero_vector [0] [5] rfl (Or.inl hz)⟩

/-- C7 (counterexample): `distance(a, a, m) = 0` fails for the cosine
metric on the zero vector `[0]` (the result is NaN) and for the
`euclidean_l2` metric on the empty vector (division by `len(a) = 0`
yields NaN). -/
theorem c7_counterexample :
    compare_embeddings "cosine" [0] [0] ≠ FVal.val 0 ∧
    compare_embeddings "euclidean_l2" ([] : Vec) ([] : Vec) ≠ FVal.val 0 := by
  constructor
  · unfold compare_embeddings
    rw [if_pos rfl, if_pos (show ([0] : Vec).length = ([0] : Vec).length from rfl)]
    norm_num [dot, sumSq, List.zipWith, fdiv, FVal.oneSub, Real.sqrt_zero]
    intro h
    exact FVal.noConfusion h
  · unfold compare_embeddings
    rw [if_neg (by decide), if_neg (by decide), if_pos rfl]
    norm_num [npSub, sumSq, List.zipWith, fdiv, Real.sqrt_zero]
    intro h
    exact FVal.noConfusion h

/-- C7 (amended): the self-distance is `0` for `euclidean` on every
vector, for `euclidean_l2` on every non-empty vector, and for `cosine` on
every vector with a nonzero entry; the excluded cases produce NaN, as the
counterexample shows. -/
theorem c7_self_distance (a : Vec) :
    compare_embeddings "euclidean" a a = FVal.val 0 ∧
    (a ≠ [] → compare_embeddings "euclidean_l2" a a = FVal.val 0) ∧
    ((∃ x ∈ a, x ≠ 0) → compare_embeddings "cosine" a a = FVal.val 0) := by
  refine ⟨?_, ?_, ?_⟩
  · unfold compare_embeddings
    rw [if_neg (by decide), if_pos rfl]
    simp [npSub, sumSq_zipWith_sub_self, sumSq_replicate_zero, Real.sqrt_zero]
  · intro ha
    unfold compare_embeddings
    rw [if_neg (by decide), if_neg (by decide), if_pos rfl]
    have hlen : (a.length : ℝ) ≠ 0 := by
      simp [List.length_eq_zero]
      exact ha
    simp [npSub, sumSq_zipWith_sub_self, sumSq_replicate_zero, Real.sqrt_zero,
      fdiv, hlen]
  · intro ⟨x, hx, hxne⟩
    unfold compare_embeddings
    rw [if_pos rfl, if_pos rfl]
    have hs : sumSq a ≠ 0 := by
      intro h
      exact hxne ((sumSq_eq_zero_iff a).1 h x hx)
    have hden : Real.sqrt (sumSq a) * Real.sqrt (sumSq a) = sumSq a :=
      Real.mul_self_sqrt (sumSq_nonneg a)
    rw [dot_self_eq_sumSq, hden]
    simp [fdiv, hs, FVal.oneSub, div_self hs]

/-- Witness for C7 (amended) at `a = [1]`. -/
theorem c7_witness :
    (([(1 : ℝ)] : Vec) ≠ [] ∧ ∃ x ∈ [(1 : ℝ)], x ≠ 0) ∧
    compare_embeddings "euclidean" [1] [1] = FVal.val 0 ∧
    compare_embeddings "euclidean_l2" [1] [1] = FVal.val 0 ∧
    compare_embeddings "cosine" [1] [1] = FVal.val 0 := by
  have h := c7_self_distance [1]
  exact ⟨⟨by simp, ⟨1, by simp, by norm_num⟩⟩,
    h.1, h.2.1 (by simp), h.2.2 ⟨1, by simp, by norm_num⟩⟩

/-- C8: for equal-length vectors, a metric name other than `cosine`,
`euclidean`, `euclidean_l2` yields `+infinity` (the final `else` branch;
no exception is raised — the modelled function is total). -/
theorem c8_unknown_metric_inf (metric : String) (a b : Vec)
    (hlen : a.length = b.length)
    (h1 : metric ≠ "cosine") (h2 : metric ≠ "euclidean")
    (h3 : metric ≠ "euclidean_l2") :
    compare_embeddings metric a b = FVal.inf := by
  unfold compare_embeddings
  rw [if_neg h1, if_neg h2, if_neg h3]

/-- Witness for C8 at the metric name `manhattan`. -/
theorem c8_witness :
    (([(1 : ℝ)] : Vec).length = ([(2 : ℝ)] : Vec).length ∧
      ("manhattan" : String) ≠ "cosine" ∧
      ("manhattan" : String) ≠ "euclidean" ∧
      ("manhattan" : String) ≠ "euclidean_l2") ∧
    compare_embeddings "manhattan" [1] [2] = FVal.inf :=
  ⟨⟨rfl, by decide, by decide, by decide⟩,
    c8_unknown_metric_inf "manhattan" [1] [2] rfl
      (by decide) (by decide) (by decide)⟩

/-! ### Store lemmas -/

theorem replicate512_len1 : (List.replicate 512 (0 : ℝ)).length = List.prod [512] := by
  rw [List.length_replicate, List.prod_singleton]

theorem replicate512_len2 :
    (List.replicate 512 (0 : ℝ)).length = List.prod [2, 256] := by
  rw [List.length_replicate]
  norm_num

theorem replicate512_len3 :
    (List.replicate 512 (0 : ℝ)).length = List.prod [1, 512] := by
  rw [List.length_replicate]
  norm_num

theorem alookup_upsert_self {α : Type} :
    ∀ (l : List (String × α)) (k : String) (v : α),
      alookup (upsert l k v) k = some v := by
  intro l
  induction l with
  | nil => intro k v; simp [upsert, alookup]
  | cons p rest ih =>
    intro k v
    obtain ⟨k', w⟩ := p
    by_cases hk : k' = k
    · simp [upsert, hk, alookup]
    · simp [upsert, hk, alookup, ih]

theorem removeKey_alookup_none {α : Type} :
    ∀ (l : List (String × α)) (k : String),
      alookup l k = none → removeKey l k = l := by
  intro l
  induction l with
  | nil => intro k _; rfl
  | cons p rest ih =>
    intro k h
    obtain ⟨k', w⟩ := p
    by_cases hk : k' = k
    · simp [alookup, hk] at h
    · simp only [alookup, if_neg hk] at h
      simp [removeKey, hk, ih k h]

/-- C4: when the durable write raises (`ioFail = true`), `set_embedding`
with a valid-shape embedding returns the failure flag instead of
crashing, and the in-memory mapping already contains the new entry (the
upsert happens before the disk write), so subsequent matching uses it. -/
theorem c4_persist_failure_keeps_memory (st : Store) (sid : String)
    (emb : NDArray) (meta : Option (List (String × String))) (now : String)
    (hshape : emb.shape = [512] ∨ emb.shape = [1, 512]) :
    (set_embedding st sid emb meta true now true).1 = false ∧
    alookup (set_embedding st sid emb meta true now true).2.cache sid =
      some emb.data := by
  have hcond : ¬ (emb.shape ≠ [512] ∧ emb.shape ≠ [1, 512]) := by
    rcases hshape with h | h <;> simp [h]
  constructor
  · simp [set_embedding, hcond]
  · simp [set_embedding, hcond, alookup_upsert_self]

/-- Witness for C4 on an empty store with a 512-element vector. -/
theorem c4_witness :
    ((⟨[512], List.replicate 512 0, replicate512_len1⟩ : NDArray).shape = [512] ∨
      (⟨[512], List.replicate 512 0, replicate512_len1⟩ : NDArray).shape = [1, 512]) ∧
    (set_embedding ⟨"Facenet512", [], [], [], []⟩ "s1"
      ⟨[512], List.replicate 512 0, replicate512_len1⟩ none true "t" true).1 = false ∧
    alookup (set_embedding ⟨"Facenet512", [], [], [], []⟩ "s1"
      ⟨[512], List.replicate 512 0, replicate512_len1⟩ none true "t" true).2.cache "s1" =
      some (List.replicate 512 0) :=
  ⟨Or.inl rfl,
    c4_persist_failure_keeps_memory ⟨"Facenet512", [], [], [], []⟩ "s1"
      ⟨[512], List.replicate 512 0, replicate512_len1⟩ none "t" (Or.inl rfl)⟩

/-- C5 (counterexample): a `(2, 256)`-shaped array flattens to exactly
512 elements, yet `set_embedding` rejects it — the code checks the shape
tuple against `(512,)` and `(1, 512)`, not the flattened element count. -/
theorem c5_counterexample :
    (⟨[2, 256], List.replicate 512 0, replicate512_len2⟩ : NDArray).data.length = 512 ∧
    (set_embedding ⟨"Facenet512", [], [], [], []⟩ "s"
      ⟨[2, 256], List.replicate 512 0, replicate512_len2⟩ none false "t" false).1 = false := by
  constructor
  · rw [List.length_replicate]
  · simp [set_embedding]

/-- C5 (amended): with the durable write not failing, `set_embedding`
returns failure exactly when the shape is neither `(512,)` nor
`(1, 512)` (a multi-dimensional shape with 512 total elements, such as
`(2, 256)`, is still rejected); every accepted embedding is stored in
memory as its flattened 1-D data. -/
theorem c5_shape_validation (st : Store) (sid : String) (emb : NDArray)
    (meta : Option (List (String × String))) (save : Bool) (now : String) :
    ((set_embedding st sid emb meta save now false).1 = false ↔
      (emb.shape ≠ [512] ∧ emb.shape ≠ [1, 512])) ∧
    (emb.shape = [512] ∨ emb.shape = [1, 512] →
      alookup (set_embedding st sid emb meta save now false).2.cache sid =
        some emb.data) := by
  by_cases hcond : emb.shape ≠ [512] ∧ emb.shape ≠ [1, 512]
  · constructor
    · simp [set_embedding, hcond]
    · intro hsh
      rcases hsh with h | h <;> simp [h] at hcond
  · constructor
    · cases save <;> simp [set_embedding, hcond]
    · intro _
      cases save <;> simp [set_embedding, hcond, alookup_upsert_self]

/-- Witness for C5 (amended) at an accepted `(1, 512)`-shaped embedding:
no failure, and the stored vector is the flattened data. -/
theorem c5_witness :
    ((⟨[1, 512], List.replicate 512 0, replicate512_len3⟩ : NDArray).shape = [1, 512]) ∧
    ¬ ((set_embedding ⟨"Facenet512", [], [], [], []⟩ "s"
        ⟨[1, 512], List.replicate 512 0, replicate512_len3⟩ none false "t" false).1 = false) ∧
    alookup (set_embedding ⟨"Facenet512", [], [], [], []⟩ "s"
      ⟨[1, 512], List.replicate 512 0, replicate512_len3⟩ none false "t" false).2.cache "s" =
      some (List.replicate 512 0) := by
  have h := c5_shape_validation ⟨"Facenet512", [], [], [], []⟩ "s"
    ⟨[1, 512], List.replicate 512 0, replicate512_len3⟩ none false "t"
  refine ⟨rfl, ?_, h.2 (Or.inr rfl)⟩
  intro hf
  have := h.1.1 hf
  simp at this

/-- C6: `delete_embedding` reports success for every store state, leaves
the state unchanged when the identity is absent from memory and durable
storage, and two consecutive deletes of the same identity both succeed. -/
theorem c6_delete_idempotent (st : Store) (sid : String) (dfd : Bool) :
    (delete_embedding st sid dfd).1 = true ∧
    ((alookup st.cache sid = none ∧ alookup st.metadata sid = none ∧
      alookup st.disk sid = none ∧ alookup st.diskMeta sid = none) →
      (delete_embedding st sid dfd).2 = st) ∧
    (delete_embedding (delete_embedding st sid dfd).2 sid dfd).1 = true := by
  refine ⟨?_, ?_, ?_⟩
  · cases dfd <;> simp [delete_embedding]
  · intro ⟨h1, h2, h3, h4⟩
    cases dfd <;>
      simp [delete_embedding, removeKey_alookup_none _ _ h1,
        removeKey_alookup_none _ _ h2, removeKey_alookup_none _ _ h3,
        removeKey_alookup_none _ _ h4]
  · cases dfd <;> simp [delete_embedding]

/-- Witness for C6 on the empty store (identity absent everywhere). -/
theorem c6_witness :
    (alookup ([] : List (String × Vec)) "x" = none ∧
      alookup ([] : List (String × MetaRecord)) "x" = none ∧
      alookup ([] : List (String × Vec)) "x" = none ∧
      alookup ([] : List (String × MetaRecord)) "x" = none) ∧
    (delete_embedding ⟨"m", [], [], [], []⟩ "x" true).1 = true ∧
    (delete_embedding ⟨"m", [], [], [], []⟩ "x" true).2 =
      ⟨"m", [], [], [], []⟩ ∧
    (delete_embedding (delete_embedding ⟨"m", [], [], [], []⟩ "x" true).2
      "x" true).1 = true := by
  have h := c6_delete_idempotent ⟨"m", [], [], [], []⟩ "x" true
  exact ⟨⟨rfl, rfl, rfl, rfl⟩, h.1, h.2.1 ⟨rfl, rfl, rfl, rfl⟩, h.2.2⟩

/-! ### Orchestrator lemmas and claims -/

/-- Rounding to 4 decimals cannot push a value past the configured
threshold `0.6`, because `0.6` is itself a 4-decimal grid point. -/
theorem round4_le_of_le {x : ℝ} (h : x ≤ 3 / 5) : round4 x ≤ 3 / 5 := by
  have h2 : round (x * 10000) ≤ (6000 : ℤ) := by
    have h3 : round (x * 10000) ≤ round (((6000 : ℤ) : ℝ)) := by
      rw [round_eq, round_eq]
      apply Int.floor_le_floor
      push_cast
      linarith
    simpa [round_intCast] using h3
  unfold round4
  rw [div_le_iff (by norm_num)]
  calc ((round (x * 10000) : ℤ) : ℝ) ≤ ((6000 : ℤ) : ℝ) := by exact_mod_cast h2
    _ = 3 / 5 * 10000 := by norm_num

theorem length_filterMap_le' {α β : Type} (f : α → Option β) :
    ∀ l : List α, (l.filterMap f).length ≤ l.length := by
  intro l
  induction l with
  | nil => simp
  | cons x rest ih =>
    cases hx : f x <;> simp [List.filterMap_cons, hx] <;> omega

/-- Evaluation of `recognize_faces` on the no-faces branch. -/
theorem recognize_faces_empty (metric : String) (t : ℝ)
    (cache : List (String × Vec)) (raw : List RawFace)
    (gen : Nat → Option Vec) (sid : String)
    (hf : extract_faces_from_frame raw (1 / 2) = []) :
    recognize_faces metric t cache raw gen sid =
      { success := false
        message := "No faces detected in the image"
        session_id := sid
        recognized_students := []
        total_faces_detected := 0
        total_recognized := none } := by
  unfold recognize_faces
  rw [hf]

/-- Evaluation of `recognize_faces` on the success branch. -/
theorem recognize_faces_success_eq (metric : String) (t : ℝ)
    (cache : List (String × Vec)) (raw : List RawFace)
    (gen : Nat → Option Vec) (sid : String) (f : Face) (fs : List Face)
    (hf : extract_faces_from_frame raw (1 / 2) = f :: fs) :
    recognize_faces metric t cache raw gen sid =
      { success := true
        message := "Recognized " ++
          toString ((f :: fs).enum.filterMap (matchFace metric t cache gen)).length
          ++ " student(s)"
        session_id := sid
        recognized_students :=
          (f :: fs).enum.filterMap (matchFace metric t cache gen)
        total_faces_detected := (f :: fs).length
        total_recognized :=
          some ((f :: fs).enum.filterMap (matchFace metric t cache gen)).length } := by
  unfold recognize_faces
  rw [hf]

/-- Every entry emitted by the per-face matcher carries a nonempty
identity and a 4-decimal rounding of a distance within the threshold. -/
theorem matchFace_some (metric : String) (t : ℝ) (cache : List (String × Vec))
    (gen : Nat → Option Vec) (p : Nat × Face) (e : RecogEntry)
    (h : matchFace metric t cache gen p = some e) :
    e.student_id ≠ "" ∧ ∃ x : ℝ, e.distance = FVal.val (round4 x) ∧ x ≤ t := by
  unfold matchFace at h
  rcases hg : gen p.1 with - | emb
  · rw [hg] at h
    simp at h
  · rw [hg] at h
    have h2 : (match find_best_match metric cache emb t with
        | (some sid, d, c) =>
          if sid ≠ "" then
            some { student_id := sid
                   confidence := FVal.round4F c
                   distance := FVal.round4F d
                   face_region := p.2.region
                   detection_confidence := p.2.confidence }
          else none
        | (none, _, _) => none) = some e := h
    clear h
    rcases hfb : find_best_match metric cache emb t with ⟨os, d, c⟩
    rw [hfb] at h2
    rcases os with - | s
    · simp at h2
    · have h3 : (if s ≠ "" then
          some { student_id := s
                 confidence := FVal.round4F c
                 distance := FVal.round4F d
                 face_region := p.2.region
                 detection_confidence := p.2.confidence }
          else none) = some e := h2
      clear h2
      by_cases hs : s ≠ ""
      · rw [if_pos hs] at h3
        obtain ⟨x, hx, hxt⟩ := find_best_match_fst_some metric cache emb t s
          (by rw [hfb])
        rw [hfb] at hx
        simp at hx
        simp only [Option.some.injEq] at h3
        refine ⟨?_, x, ?_, hxt⟩
        · rw [← h3]
          exact hs
        · rw [← h3]
          simp [FVal.round4F, hx]
      · rw [if_neg hs] at h3
        simp at h3

/-- C1 (counterexample): for a recognition call in which the detector
returns zero faces, the code returns `success = False` (with an empty
recognized list and zero faces detected) — the claim's `success = true`
is refuted. -/
theorem c1_counterexample :
    (recognize_faces "cosine" (3 / 5) [] [] (fun _ => none) "s").success = false ∧
    (recognize_faces "cosine" (3 / 5) [] [] (fun _ => none) "s").recognized_students
      = [] ∧
    (recognize_faces "cosine" (3 / 5) [] [] (fun _ => none) "s").total_faces_detected
      = 0 := by
  have hf : extract_faces_from_frame [] (1 / 2) = [] := by
    simp [extract_faces_from_frame]
  rw [recognize_faces_empty "cosine" (3 / 5) [] [] (fun _ => none) "s" hf]
  exact ⟨rfl, rfl, rfl⟩

/-- C1 (amended): when the detector returns zero faces after confidence
filtering, `recognize_faces` returns the structured no-faces result with
`success = false` (not `true` as claimed), message `"No faces detected in
the image"`, an empty recognized list and `total_faces_detected = 0`. -/
theorem c1_no_faces_result (metric : String) (t : ℝ)
    (cache : List (String × Vec)) (raw : List RawFace)
    (gen : Nat → Option Vec) (sid : String)
    (hf : extract_faces_from_frame raw (1 / 2) = []) :
    recognize_faces metric t cache raw gen sid =
      { success := false
        message := "No faces detected in the image"
        session_id := sid
        recognized_students := []
        total_faces_detected := 0
        total_recognized := none } :=
  recognize_faces_empty metric t cache raw gen sid hf

/-- Witness for C1 (amended): a detector output whose single face is
filtered out by the 0.5 confidence threshold. -/
theorem c1_witness :
    extract_faces_from_frame [⟨1 / 4, ⟨0, 0, 1, 1⟩⟩] (1 / 2) = [] ∧
    recognize_faces "cosine" (3 / 5) [] [⟨1 / 4, ⟨0, 0, 1, 1⟩⟩]
      (fun _ => none) "s" =
      { success := false
        message := "No faces detected in the image"
        session_id := "s"
        recognized_students := []
        total_faces_detected := 0
        total_recognized := none } := by
  have hf : extract_faces_from_frame [⟨1 / 4, ⟨0, 0, 1, 1⟩⟩] (1 / 2) = [] := by
    simp [extract_faces_from_frame, List.enum]
    norm_num
  exact ⟨hf, c1_no_faces_result "cosine" (3 / 5) [] _ (fun _ => none) "s" hf⟩

/-- C10: every successful recognition result reports
`total_recognized = |recognized_students|`, recognizes at most as many
students as faces were detected, and every listed entry carries a
non-empty identity whose reported (4-decimal-rounded) distance is within
the configured threshold `0.6`; faces whose embedding failed or whose
best match was rejected are omitted rather than listed with an empty
identity. -/
theorem c10_success_result_invariants (metric : String)
    (cache : List (String × Vec)) (raw : List RawFace)
    (gen : Nat → Option Vec) (sid : String) (t : ℝ)
    (ht : t = CONFIDENCE_THRESHOLD)
    (hs : (recognize_faces metric t cache raw gen sid).success = true) :
    (recognize_faces metric t cache raw gen sid).total_recognized =
      some (recognize_faces metric t cache raw gen sid).recognized_students.length ∧
    (recognize_faces metric t cache raw gen sid).recognized_students.length ≤
      (recognize_faces metric t cache raw gen sid).total_faces_detected ∧
    ∀ e ∈ (recognize_faces metric t cache raw gen sid).recognized_students,
      e.student_id ≠ "" ∧ FVal.leR e.distance t := by
  rcases hf : extract_faces_from_frame raw (1 / 2) with - | ⟨f, fs⟩
  · rw [recognize_faces_empty metric t cache raw gen sid hf] at hs
    simp at hs
  · rw [recognize_faces_success_eq metric t cache raw gen sid f fs hf]
    refine ⟨rfl, ?_, ?_⟩
    · calc ((f :: fs).enum.filterMap (matchFace metric t cache gen)).length
          ≤ (f :: fs).enum.length := length_filterMap_le' _ _
        _ = (f :: fs).length := List.enum_length
    · intro e he
      obtain ⟨p, hp, hpe⟩ := List.mem_filterMap.1 he
      obtain ⟨hne, x, hdist, hxt⟩ := matchFace_some metric t cache gen p e hpe
      refine ⟨hne, ?_⟩
      rw [hdist]
      have hxt' : x ≤ 3 / 5 := by
        rw [ht] at hxt
        simpa [CONFIDENCE_THRESHOLD] using hxt
      have hr := round4_le_of_le hxt'
      show round4 x ≤ t
      rw [ht]
      simpa [CONFIDENCE_THRESHOLD] using hr

/-- Witness for C10: one detected face whose embedding generation fails,
at the configured threshold — a successful result with zero recognized
students out of one detected face. -/
theorem c10_witness :
    ((CONFIDENCE_THRESHOLD : ℝ) = CONFIDENCE_THRESHOLD ∧
      (recognize_faces "cosine" CONFIDENCE_THRESHOLD []
        [⟨1, ⟨0, 0, 1, 1⟩⟩] (fun _ => none) "s").success = true) ∧
    ((recognize_faces "cosine" CONFIDENCE_THRESHOLD []
        [⟨1, ⟨0, 0, 1, 1⟩⟩] (fun _ => none) "s").total_recognized =
      some (recognize_faces "cosine" CONFIDENCE_THRESHOLD []
        [⟨1, ⟨0, 0, 1, 1⟩⟩] (fun _ => none) "s").recognized_students.length ∧
    (recognize_faces "cosine" CONFIDENCE_THRESHOLD []
        [⟨1, ⟨0, 0, 1, 1⟩⟩] (fun _ => none) "s").recognized_students.length ≤
      (recognize_faces "cosine" CONFIDENCE_THRESHOLD []
        [⟨1, ⟨0, 0, 1, 1⟩⟩] (fun _ => none) "s").total_faces_detected ∧
    ∀ e ∈ (recognize_faces "cosine" CONFIDENCE_THRESHOLD []
        [⟨1, ⟨0, 0, 1, 1⟩⟩] (fun _ => none) "s").recognized_students,
      e.student_id ≠ "" ∧ FVal.leR e.distance CONFIDENCE_THRESHOLD) := by
  have hf : extract_faces_from_frame [⟨1, ⟨0, 0, 1, 1⟩⟩] (1 / 2) =
      [⟨0, round4 1, ⟨0, 0, 1, 1⟩⟩] := by
    simp only [extract_faces_from_frame, List.enum, List.enumFrom,
      List.filterMap_cons, List.filterMap_nil]
    rw [if_pos (by norm_num)]
  have hs : (recognize_faces "cosine" CONFIDENCE_THRESHOLD []
      [⟨1, ⟨0, 0, 1, 1⟩⟩] (fun _ => none) "s").success = true := by
    rw [recognize_faces_success_eq "cosine" CONFIDENCE_THRESHOLD []
      [⟨1, ⟨0, 0, 1, 1⟩⟩] (fun _ => none) "s" ⟨0, round4 1, ⟨0, 0, 1, 1⟩⟩ [] hf]
  exact ⟨⟨rfl, hs⟩, c10_success_result_invariants "cosine" []
    [⟨1, ⟨0, 0, 1, 1⟩⟩] (fun _ => none) "s" CONFIDENCE_THRESHOLD rfl hs⟩
